import Mathlib

/-!
Shallow embedding of the network-capture parsing core of this repository
(`app/utils/parser.py`): platform detection, per-platform CPU/memory
heuristics, structural deduplication and the document assembler
`parse_network_file`.  Python strings are Lean `String`s, Python values
(str / int / float / None / list / dict) are the mutual inductive `Val`,
Python dicts are insertion-ordered association structures (`Fields`),
and a function that can raise returns `Except String _` (the error text
names the Python exception).  The external TextFSM engine
(`parse_output`, reached through `parse_command`, which catches every
engine exception and degrades to `[]`) is a parameter `Engine` of the
assembler.  Theorems at the end of the file settle the specification
claims against these definitions.
-/

namespace NetParser

/-! ### Python-style string primitives -/

/-- ASCII lower-casing on code points (the IGNORECASE behaviour relevant
to the ASCII vendor markers). -/
def lowerNat (n : Nat) : Nat :=
  if 65 ≤ n && n ≤ 90 then n + 32 else n

/-- Case-insensitive character comparison. -/
def eqCI (a b : Char) : Bool :=
  lowerNat a.toNat = lowerNat b.toNat

/-- Case-insensitive prefix test. -/
def isPrefixCI : List Char → List Char → Bool
  | [], _ => true
  | _ :: _, [] => false
  | p :: ps, c :: cs => eqCI p c && isPrefixCI ps cs

/-- Case-insensitive substring search on character lists. -/
def isSubCI (pat : List Char) : List Char → Bool
  | [] => pat.isEmpty
  | c :: rest => isPrefixCI pat (c :: rest) || isSubCI pat rest

/-- Case-insensitive substring test: models `re.search(pat, text, re.IGNORECASE)`
for a literal pattern `pat` (the source's content patterns are literal
alternations, so `re.search` on them is substring search). -/
def containsCI (hay pat : String) : Bool :=
  isSubCI pat.toList hay.toList

/-- Python whitespace for `str.strip()` (ASCII whitespace classes). -/
def isSpaceChar (c : Char) : Bool :=
  c = ' ' || c = '\t' || c = '\n' || c = '\r' || c = '\x0b' || c = '\x0c'

/-- Python `s.strip()`. -/
def pyStrip (s : String) : String :=
  String.mk (((s.toList.dropWhile isSpaceChar).reverse.dropWhile isSpaceChar).reverse)

/-- Split a character list at every newline (Python `s.split("\n")`). -/
def splitNl : List Char → List (List Char)
  | [] => [[]]
  | c :: rest =>
    if c = '\n' then [] :: splitNl rest
    else
      match splitNl rest with
      | h :: t => (c :: h) :: t
      | [] => [[c]]

/-- Join line pieces with newlines (Python `"\n".join(...)`). -/
def joinNl : List (List Char) → List Char
  | [] => []
  | [x] => x
  | x :: rest => x ++ '\n' :: joinNl rest

/-- Split a character list at every dot (Python `s.split(".")`). -/
def splitDot : List Char → List (List Char)
  | [] => [[]]
  | c :: rest =>
    if c = '.' then [] :: splitDot rest
    else
      match splitDot rest with
      | h :: t => (c :: h) :: t
      | [] => [[c]]

/-- Case-insensitive string equality (ASCII; models `k.lower() == lit`
for the ASCII key literals involved). -/
def eqCIStr (a b : String) : Bool :=
  isPrefixCI a.toList b.toList && isPrefixCI b.toList a.toList

/-- Index of the first occurrence of `pat` inside a character list
(case-sensitive, as in the Cisco CPU regex which has no IGNORECASE flag). -/
def findSubIdx (pat : List Char) : List Char → Option Nat
  | [] => if pat.isEmpty then some 0 else Option.none
  | c :: rest =>
    if pat.isPrefixOf (c :: rest) then some 0 else (findSubIdx pat rest).map (· + 1)

/-- Python `str.isdigit()` restricted to ASCII digits (non-ASCII digit
characters are not modelled; captures are ASCII CLI dumps). -/
def isDigits (s : String) : Bool :=
  !s.isEmpty && s.toList.all Char.isDigit

/-- Numeric value of a digit string (the value `int()` gives an all-digit string). -/
def digitsToNat (cs : List Char) : Nat :=
  cs.foldl (fun acc c => acc * 10 + (c.toNat - 48)) 0

/-- Python `int(s)` for a string: strip whitespace, optional sign, digits
(digit-group underscores are not modelled); `Option.none` is `ValueError`. -/
def parsePyInt (s : String) : Option Int :=
  match (pyStrip s).toList with
  | [] => Option.none
  | '-' :: rest =>
    if !rest.isEmpty && rest.all Char.isDigit then some (-(digitsToNat rest : Int))
    else Option.none
  | '+' :: rest =>
    if !rest.isEmpty && rest.all Char.isDigit then some (digitsToNat rest : Int)
    else Option.none
  | cs =>
    if cs.all Char.isDigit then some (digitsToNat cs : Int) else Option.none

/-- Truncation toward zero, as Python `int(float)` does. -/
def ratTrunc (q : Rat) : Int :=
  if q < 0 then -((-q).floor) else q.floor

/-- Round half to even, as Python `round` does.  The model rounds the exact
rational; the binary-float representation error of `round` on `float`
arguments is not modelled. -/
def roundHalfEven (q : Rat) : Int :=
  let f := q.floor
  let r := q - (f : Rat)
  if r < 1/2 then f else if 1/2 < r then f + 1 else if f % 2 = 0 then f else f + 1

/-- Python `round(q, 2)`. -/
def pyRound2 (q : Rat) : Rat :=
  (roundHalfEven (q * 100) : Int) / 100

/-- Left-pad a digit string with zeros to the given length. -/
def padLeftZeros (s : String) (n : Nat) : String :=
  String.mk (List.replicate (n - s.length) '0') ++ s

/-- Decimal rendering of a rational with a terminating decimal expansion
(every binary float has one); approximates Python `str` on numbers.
Denominators needing more than 30 decimal digits fall back to `num/den`
form (such values do not arise from floats of interest). -/
def ratStr (q : Rat) : String :=
  if q.den = 1 then toString q.num
  else
    match (List.range 31).find? (fun k => (10 ^ k) % q.den = 0) with
    | some k =>
      let n := q.num.natAbs * ((10 ^ k) / q.den)
      let ds := padLeftZeros (toString n) (k + 1)
      let ip := ds.take (ds.length - k)
      let fp := ds.drop (ds.length - k)
      (if q.num < 0 then "-" else "") ++ ip ++ "." ++ fp
    | Option.none => toString q.num ++ "/" ++ toString q.den

/-! ### Python-style values and dicts

Python dicts preserve insertion order; assignment to an existing key keeps
its position, assignment to a new key appends.  `Fields` is that ordered
key/value structure, `ValList` an ordered sequence; both are mutual with
`Val` so that all operations are structurally recursive and executable. -/

mutual
inductive Val where
  | str (s : String)
  | num (q : Rat)
  | vnone
  | list (items : ValList)
  | dict (fields : Fields)
deriving DecidableEq, Repr

inductive ValList where
  | nil
  | cons (v : Val) (rest : ValList)
deriving DecidableEq, Repr

inductive Fields where
  | nil
  | cons (k : String) (v : Val) (rest : Fields)
deriving DecidableEq, Repr
end

/-- Lookup in an ordered dict (`d[k]` / `k in d` / `d.get(k)`). -/
def Fields.get : Fields → String → Option Val
  | .nil, _ => Option.none
  | .cons k v rest, key => if k = key then some v else rest.get key

/-- Assignment `d[key] = value`: replace in place or append. -/
def Fields.set : Fields → String → Val → Fields
  | .nil, key, value => .cons key value .nil
  | .cons k v rest, key, value =>
    if k = key then .cons k value rest else .cons k v (rest.set key value)

/-- Python `d.update(other)`: apply `other`'s entries left to right. -/
def Fields.updateWith : Fields → Fields → Fields
  | r, .nil => r
  | r, .cons k v rest => (r.set k v).updateWith rest

/-- Key list of a dict, in insertion order. -/
def Fields.keys : Fields → List String
  | .nil => []
  | .cons k _ rest => k :: rest.keys

/-- Build an ordered dict from a key/value list (keys assumed distinct). -/
def Fields.ofPairs : List (String × Val) → Fields
  | [] => .nil
  | (k, v) :: rest => .cons k v (Fields.ofPairs rest)

/-- Association pairs of a dict, in order (`d.items()`). -/
def Fields.pairs : Fields → List (String × Val)
  | .nil => []
  | .cons k v rest => (k, v) :: rest.pairs

/-- Build a `ValList` from a Lean list. -/
def ValList.ofList : List Val → ValList
  | [] => .nil
  | v :: rest => .cons v (ValList.ofList rest)

/-- Length of a `ValList`. -/
def ValList.length : ValList → Nat
  | .nil => 0
  | .cons _ rest => rest.length + 1

/-! ### Assoc-list helpers for the module-level tables and for
`parsed_data_for_file` (a dict from command string to record list). -/

/-- First-match lookup in an association list. -/
def getA {α : Type} : List (String × α) → String → Option α
  | [], _ => Option.none
  | (k, v) :: rest, key => if k = key then some v else getA rest key

/-- In-place-style update of an association list (replace or append). -/
def setA {α : Type} : List (String × α) → String → α → List (String × α)
  | [], key, value => [(key, value)]
  | (k, v) :: rest, key, value =>
    if k = key then (k, value) :: rest else (k, v) :: setA rest key value

/-! ### Platform detection (`detect_platform` and `ENV_PATTERNS`) -/

/-- The ordered platform signature table.  Each content regex in the source
is an alternation of literals, modelled as the list of its alternatives;
each command regex is a single literal. -/
def ENV_PATTERNS : List (String × List String × String) :=
  [ ("huawei_vrp", (["Huawei Versatile Routing Platform", "VRP (R)"], "display")),
    ("huawei_yunshan", (["Huawei YunShan OS"], "display")),
    ("cisco_ios", (["Cisco IOS"], "show")),
    ("cisco_nxos", (["Cisco Nexus Operating System", "NX-OS"], "show")),
    ("aruba_aoscx", (["ArubaOS-CX"], "show")) ]

/-- Content-marker match: some alternative occurs case-insensitively. -/
def contentMatches (text : String) (pats : List String) : Bool :=
  pats.any (containsCI text)

/-- Both patterns of a signature entry match the text. -/
def matchesEntry (text : String) (e : String × List String × String) : Bool :=
  contentMatches text e.2.1 && containsCI text e.2.2

/-- The detection loop body: first entry whose content marker matches and
whose command marker also matches; continue otherwise. -/
def detectFrom (text : String) : List (String × List String × String) → String
  | [] => "unknown"
  | (key, pats, cmd) :: rest =>
    if contentMatches text pats then
      if containsCI text cmd then key else detectFrom text rest
    else detectFrom text rest

/-- `detect_platform`: platform id from full file content. -/
def detect_platform (text : String) : String :=
  detectFrom text ENV_PATTERNS

/-! ### Command template table (`TEXTFSM_TEMPLATES`) -/

/-- Per-platform command-to-template mapping. -/
def TEXTFSM_TEMPLATES : List (String × List (String × String)) :=
  [ ("cisco_ios",
      [ ("show version", "show_version"),
        ("show inventory", "show_inventory"),
        ("show interfaces", "show_interfaces"),
        ("show processes memory sorted", "show_processes_memory_sorted"),
        ("show processes cpu history", "show_processes_cpu_history") ]),
    ("cisco_nxos",
      [ ("show version", "show_version"),
        ("show inventory", "show_inventory"),
        ("show interface", "show_interface"),
        ("show system resources", "show_system_resources") ]),
    ("aruba_aoscx",
      [ ("show system", "show_system"),
        ("show inventory", "show_inventory"),
        ("show interface", "show_interface") ]),
    ("huawei_vrp",
      [ ("display version", "display_version"),
        ("display interface", "display_interface"),
        ("display cpu-usage", "display_cpu_usage"),
        ("display memory usage", "display_memory_usage"),
        ("display device", "display_device") ]),
    ("huawei_yunshan",
      [ ("display version", "display_version"),
        ("display interface", "display_interface"),
        ("display cpu-usage", "display_cpu_usage"),
        ("display memory usage", "display_memory_usage"),
        ("display device", "display_device") ]) ]

/-! ### Cisco IOS CPU extraction (`extract_cisco_cpu_usage`)

String surgery helpers below reproduce the exact Python slicing:
`s.split("\n", 2)[-1]`, `s.rsplit("\n", 13)[0]`, `s.splitlines()`, and
negative indexing (whose out-of-range case is an `IndexError`).
`splitlines` is modelled on `"\n"` boundaries only (the capture texts
considered contain no `\r` or other exotic line separators). -/

/-- Python `s.split("\n", n)[-1]`: drop up to `n` leading lines. -/
def pySplitKeepTail (n : Nat) (s : String) : String :=
  let ps := splitNl s.toList
  String.mk (joinNl (ps.drop (min n (ps.length - 1))))

/-- Python `s.rsplit("\n", n)[0]`: drop up to `n` trailing lines, but when
fewer than `n` line breaks exist the result is only the first line. -/
def pyRsplitKeepHead (n : Nat) (s : String) : String :=
  let ps := splitNl s.toList
  String.mk (joinNl (ps.take (max 1 (ps.length - n))))

/-- Python `s.splitlines()` (newline-only model): like `split("\n")` but
empty overall for `""` and with a trailing empty piece dropped. -/
def pySplitlines (s : String) : List String :=
  match s.toList with
  | [] => []
  | cs =>
    let ps := splitNl cs
    if ps.getLastD [] = [] then (ps.dropLast).map String.mk
    else ps.map String.mk

/-- Python `l[-n:]`. -/
def lastN {α : Type} (n : Nat) (l : List α) : List α :=
  l.drop (l.length - n)

/-- Cisco CPU window opening marker. -/
def CISCO_CPU_START_REGEX : String := "last 60 minutes"

/-- Cisco CPU window closing marker. -/
def CISCO_CPU_END_REGEX : String := "last 72 hours"

/-- Group 1 of `re.search("last 60 minutes(.*?)last 72 hours", text, re.DOTALL)`:
the text between the first start marker and the first end marker after it.
(If the first occurrence of the start marker has no end marker after it,
no later occurrence has one either, so the whole search fails — this
matches the regex engine's leftmost-match rule.) -/
def ciscoWindow (text : String) : Option String :=
  let cs := text.toList
  match findSubIdx CISCO_CPU_START_REGEX.toList cs with
  | Option.none => Option.none
  | some i =>
    let afterStart := cs.drop (i + CISCO_CPU_START_REGEX.length)
    match findSubIdx CISCO_CPU_END_REGEX.toList afterStart with
    | Option.none => Option.none
    | some j => some (String.mk (afterStart.take j))

/-- The `cpu_history_section` slice of the window. -/
def ciscoMaxSection (w : String) : String :=
  pyRsplitKeepHead 13 (pySplitKeepTail 2 w)

/-- The `cpu_row_avg_section` slice of the window (last ten lines of the
window minus its first two and last three lines). -/
def ciscoAvgLines (w : String) : List String :=
  lastN 10 (pySplitlines (pyRsplitKeepHead 3 (pySplitKeepTail 2 w)))

/-- Python `max()` over a nonempty list of naturals. -/
def maxOfList (x : Nat) (xs : List Nat) : Nat :=
  xs.foldl Nat.max x

/-- `extract_cisco_cpu_usage`: reconstruct max/average CPU from the raw
60-minute ASCII chart.  The source's two `try/except ValueError` guards
around `int(...)` are modelled only where reachable: the max-value branch
converts digit-checked strings (never raises); the average branch's
failure is the empty digit string.  The unguarded `splitlines()[-2]`
indexing is the `IndexError` case. -/
def extract_cisco_cpu_usage (text : String) : Except String Fields :=
  match ciscoWindow text with
  | Option.none =>
    Except.ok (.cons "cpu_max" (.str "Cannot find max CPU (regex failed)")
      (.cons "cpu_avg" (.str "Cannot find average CPU (regex failed)") .nil))
  | some w =>
    let lines := pySplitlines (ciscoMaxSection w)
    if lines.length < 2 then Except.error "IndexError: list index out of range"
    else
      let cpu_first_row := (lastN 2 lines).headD ""
      let cpu_second_row := lines.getLastD ""
      let arr_first_row := cpu_first_row.toList.drop 4
      let arr_second_row := cpu_second_row.toList.drop 4
      let cpu_usage_values : List String :=
        if arr_first_row.isEmpty && !arr_second_row.isEmpty then
          (arr_second_row.map (fun c => pyStrip (String.mk [c]))).filter (fun v => v ≠ "")
        else if !arr_first_row.isEmpty && !arr_second_row.isEmpty then
          (arr_first_row.zip arr_second_row).map (fun p => pyStrip (String.mk [p.1, p.2]))
        else []
      let valid_cpu_values := cpu_usage_values.filterMap
        (fun v => if isDigits v then some (digitsToNat v.toList) else Option.none)
      let maxStr := match valid_cpu_values with
        | [] => "No numeric CPU max found"
        | x :: xs => toString (maxOfList x xs)
      let avg_raw_line := (ciscoAvgLines w).filter (fun l => l.toList.contains '#')
      let avgStr := match avg_raw_line with
        | [] => "1"
        | l :: _ =>
          let extracted := String.mk (l.toList.filter Char.isDigit)
          if extracted = "" then "Error parsing average CPU"
          else
            let n := digitsToNat extracted.toList
            if n < 10 then "1" else toString n
      Except.ok (((Fields.cons "cpu_max" (.str "N/A")
        (.cons "cpu_avg" (.str "N/A") .nil)).set "cpu_max" (.str maxStr)).set
        "cpu_avg" (.str avgStr))

/-! ### Value coercion helpers shared by the heuristics -/

/-- Python `str()` of a value (container repr is abbreviated; heuristic
inputs are scalar in practice). -/
def pyStr : Val → String
  | .str s => s
  | .num q => ratStr q
  | .vnone => "None"
  | .list _ => "<list>"
  | .dict _ => "<dict>"

/-- Python `int(value)` for a scalar: numbers truncate, strings parse,
`None` (or a container) is a `TypeError`; `Option.none` covers both
`ValueError` and `TypeError`, which the callers catch together. -/
def pyIntOf : Val → Option Int
  | .num q => some (ratTrunc q)
  | .str s => parsePyInt s
  | _ => Option.none

/-! ### Cisco memory, Aruba, and Huawei heuristics -/

/-- `calculate_cisco_memory_usage`.  The `isinstance(memory_data, dict)`
guard is always satisfied in the embedding (records are dicts). -/
def calculate_cisco_memory_usage (memory_data : Fields) : Fields :=
  match pyIntOf ((memory_data.get "memory_total").getD (.num 0)),
        pyIntOf ((memory_data.get "memory_used").getD (.num 0)) with
  | some memory_total, some memory_used =>
    if memory_total = 0 then .cons "memory_usage_percent" (.num 0) .nil
    else .cons "memory_usage_percent"
      (.num (pyRound2 ((memory_used : Rat) / (memory_total : Rat) * 100))) .nil
  | _, _ => .cons "memory_usage_percent" (.str "N/A") .nil

/-- `process_aruba_system_data`. -/
def process_aruba_system_data (system_data : Fields) : Fields :=
  let result : Fields := .cons "cpu_max" (.str "N/A")
    (.cons "cpu_avg" (.str "N/A") (.cons "memory_usage_percent" (.str "N/A") .nil))
  let result := match system_data.get "cpu" with
    | some v =>
      let cpu_value := pyStrip (pyStr v)
      if isDigits cpu_value then
        (result.set "cpu_max" (.str cpu_value)).set "cpu_avg" (.str cpu_value)
      else result
    | Option.none => result
  match system_data.get "memory_usage_percent" with
  | some v =>
    let mv := pyStrip (pyStr v)
    if isDigits mv then result.set "memory_usage_percent" (.str mv) else result
  | Option.none => result

/-- Field-name probe order of the Huawei CPU heuristic. -/
def HUAWEI_CPU_KEYS : List String :=
  ["cpu_usage_rate", "cpu_usage_average", "cpu_usage"]

/-- Remove the first `.` of a string (Python `s.replace(".", "", 1)`). -/
def removeFirstDot : List Char → List Char
  | [] => []
  | c :: rest => if c = '.' then rest else c :: removeFirstDot rest

/-- The Huawei numeric test `str(value).replace(".", "", 1).isdigit()`. -/
def huaweiNumericOk (v : Val) : Bool :=
  isDigits (String.mk (removeFirstDot (pyStr v).toList))

/-- Python `int(float(value))` for a value that passed `huaweiNumericOk`:
nonnegative decimal, truncated.  (The value's digits fit a float exactly
in the captures considered; float rounding of huge literals is not
modelled.)  For values failing the test the result is unused. -/
def huaweiTruncVal : Val → Int
  | .num q => ratTrunc q
  | .str s =>
    (match splitDot s.toList with
     | [a] => (digitsToNat a : Int)
     | [a, _] => (digitsToNat a : Int)
     | _ => 0)
  | _ => 0

/-- The probe loop of `process_huawei_cpu_data`: first present, numeric
field wins; the `break` stops the loop. -/
def huaweiProbe (cpu_data : Fields) : List String → Fields
  | [] => .cons "cpu_avg" (.str "N/A") .nil
  | k :: rest =>
    match cpu_data.get k with
    | some v =>
      if huaweiNumericOk v then
        .cons "cpu_avg" (.str (toString (huaweiTruncVal v))) .nil
      else huaweiProbe cpu_data rest
    | Option.none => huaweiProbe cpu_data rest

/-- `process_huawei_cpu_data`. -/
def process_huawei_cpu_data (cpu_data : Fields) : Fields :=
  huaweiProbe cpu_data HUAWEI_CPU_KEYS

/-- Specification view of the Huawei CPU probe: the first probe key whose
value is present and numeric, with its truncated value. -/
def huaweiFirstNumeric (cpu_data : Fields) : Option Int :=
  (HUAWEI_CPU_KEYS.filterMap (fun k => (cpu_data.get k).bind
    (fun v => if huaweiNumericOk v then some (huaweiTruncVal v) else Option.none))).head?

/-- `process_huawei_memory_data`: `total_memory`/`used_memory` with
fallback to `memory_total`/`memory_used`, percentage only when total
is positive. -/
def process_huawei_memory_data (memory_data : Fields) : Fields :=
  match pyIntOf (((memory_data.get "total_memory").orElse
          (fun _ => memory_data.get "memory_total")).getD (.num 0)),
        pyIntOf (((memory_data.get "used_memory").orElse
          (fun _ => memory_data.get "memory_used")).getD (.num 0)) with
  | some memory_total, some memory_used =>
    if 0 < memory_total then
      .cons "memory_usage_percent"
        (.num (pyRound2 ((memory_used : Rat) / (memory_total : Rat) * 100))) .nil
    else .cons "memory_usage_percent" (.str "N/A") .nil
  | _, _ => .cons "memory_usage_percent" (.str "N/A") .nil

/-! ### Structural deduplication (`deduplicate_serial_and_hardware`)

The Python function mutates in place; the embedding returns the new
structure.  `Option.none` models the `TypeError` raised when an element
of a designated list (or a value inside a record-shaped element) is
unhashable (a list or dict). -/

/-- Hashability of a value (Python scalars hash; lists and dicts do not). -/
def hashableVal : Val → Bool
  | .list _ => false
  | .dict _ => false
  | _ => true

/-- All values of a record are hashable, so `tuple(sorted(item.items()))`
can be hashed. -/
def fieldsHashable (r : Fields) : Bool :=
  (r.pairs).all (fun kv => hashableVal kv.2)

/-- Insert into a key-sorted pair list (Python string order is code-point
lexicographic, as is Lean's).  Keys of one dict are distinct, so only the
key part decides. -/
def insertSorted (p : String × Val) : List (String × Val) → List (String × Val)
  | [] => [p]
  | q :: rest => if p.1 < q.1 then p :: q :: rest else q :: insertSorted p rest

/-- Python `sorted(item.items())` for a dict with distinct keys. -/
def sortPairs : List (String × Val) → List (String × Val)
  | [] => []
  | p :: rest => insertSorted p (sortPairs rest)

/-- Membership key of a deduplication candidate: record-shaped elements by
their sorted field/value pairs, scalars by themselves.  The two sides of
the sum never compare equal, like a Python tuple and a scalar. -/
abbrev SeenKey := (List (String × Val)) ⊕ Val

instance (k : SeenKey) (l : List SeenKey) : Decidable (k ∈ l) :=
  decidable_of_iff (∃ x ∈ l, x = k) (by simp)

/-- Key of one element of a `serial`/`hardware` list; `Option.none` is the
unhashable `TypeError` case. -/
def keyOfItem : Val → Option SeenKey
  | .dict r => if fieldsHashable r then some (.inl (sortPairs r.pairs)) else Option.none
  | .list _ => Option.none
  | v => some (.inr v)

/-- The deduplication loop over one designated list, carrying the `seen`
set (modelled as a list, membership is what matters). -/
def dedupItemsAux (seen : List SeenKey) : ValList → Option ValList
  | .nil => some .nil
  | .cons item rest =>
    match keyOfItem item with
    | Option.none => Option.none
    | some k =>
      if k ∈ seen then dedupItemsAux seen rest
      else (dedupItemsAux (k :: seen) rest).map (.cons item)

/-- Is a `serial`/`hardware` key (case-insensitive)? -/
def isDedupKey (k : String) : Bool :=
  eqCIStr k "serial" || eqCIStr k "hardware"

mutual
/-- Recursive walk of `deduplicate_serial_and_hardware` over a value. -/
def dedupV : Val → Option Val
  | .str s => some (.str s)
  | .num q => some (.num q)
  | .vnone => some .vnone
  | .list items => (dedupL items).map Val.list
  | .dict fields => (dedupD fields).map Val.dict

/-- Walk over a sequence: recurse into every element. -/
def dedupL : ValList → Option ValList
  | .nil => some .nil
  | .cons v rest =>
    match dedupV v, dedupL rest with
    | some v', some rest' => some (.cons v' rest')
    | _, _ => Option.none

/-- Walk over a dict: a `serial`/`hardware` key with a list value gets that
list deduplicated (its elements are not recursed into); every other value
is recursed into. -/
def dedupD : Fields → Option Fields
  | .nil => some .nil
  | .cons k v rest =>
    match (if isDedupKey k then
             match v with
             | .list items => (dedupItemsAux [] items).map Val.list
             | other => dedupV other
           else dedupV v),
          dedupD rest with
    | some v', some rest' => some (.cons k v' rest')
    | _, _ => Option.none
end

/-! ### Specification-side first-occurrence filter (for the deduplication
claim): keep each element whose key did not occur earlier, in order. -/

/-- Remove the later elements that share a key with `x`. -/
def removeSameKey (x : Val) : ValList → ValList
  | .nil => .nil
  | .cons y rest =>
    if keyOfItem y = keyOfItem x then removeSameKey x rest
    else .cons y (removeSameKey x rest)

/-- Fuel-driven recursion for `keepFirsts` (fuel at least the list length
never runs out, see `keepFirstsGo_congr`). -/
def keepFirstsGo : Nat → ValList → ValList
  | 0, _ => .nil
  | _ + 1, .nil => .nil
  | f + 1, .cons x xs => .cons x (keepFirstsGo f (removeSameKey x xs))

/-- Keep the first occurrence of every key, preserving order. -/
def keepFirsts (l : ValList) : ValList :=
  keepFirstsGo l.length l

/-- Drop the elements whose key is already in `seen` (proof device relating
the seen-set loop to `keepFirsts`). -/
def dropSeen (seen : List SeenKey) : ValList → ValList
  | .nil => .nil
  | .cons y rest =>
    match keyOfItem y with
    | some k => if k ∈ seen then dropSeen seen rest else .cons y (dropSeen seen rest)
    | Option.none => .cons y (dropSeen seen rest)

/-! ### The document assembler (`parse_network_file`) -/

/-- A parsed record as emitted by the external engine. -/
abbrev Engine := String → String → String → List Fields

/-- One parsed document: `{"platform": ..., "data": ..., "filename": ...}`. -/
structure Doc where
  platform : String
  data : Fields
  filename : String
deriving DecidableEq, Repr

/-- The `device_specific_cpu_mem_data` default. -/
def cpuMemInit : Fields :=
  .cons "cpu_max" (.str "N/A")
    (.cons "cpu_avg" (.str "N/A") (.cons "memory_usage_percent" (.str "N/A") .nil))

/-- The `cisco_ios` enrichment branch (raw-text CPU, then memory from the
first record of "show processes memory sorted", merged back into that
record). -/
def ciscoIosEnrich (file_content : String) (parsed : List (String × List Fields)) :
    Except String (List (String × List Fields) × Fields) :=
  match extract_cisco_cpu_usage file_content with
  | Except.error e => Except.error e
  | Except.ok ciscoCpu =>
    let cpuMem := cpuMemInit.updateWith ciscoCpu
    match (getA parsed "show processes memory sorted").getD [] with
    | [] => Except.ok (parsed, cpuMem)
    | m0 :: rest =>
      if m0 = Fields.nil then Except.ok (parsed, cpuMem)
      else
        let calculatedMem := calculate_cisco_memory_usage m0
        let cpuMem := cpuMem.set "memory_usage_percent"
          ((calculatedMem.get "memory_usage_percent").getD .vnone)
        Except.ok (setA parsed "show processes memory sorted"
          ((m0.updateWith calculatedMem) :: rest), cpuMem)

/-- The `cisco_nxos` enrichment branch (system resources record feeds both
cpu fields and the memory field; the table itself is not modified). -/
def ciscoNxosEnrich (parsed : List (String × List Fields)) :
    List (String × List Fields) × Fields :=
  match (getA parsed "show system resources").getD [] with
  | [] => (parsed, cpuMemInit)
  | s0 :: _ =>
    if s0 = Fields.nil then (parsed, cpuMemInit)
    else
      let cpuMem := match s0.get "cpu_usage_percent" with
        | some v => (cpuMemInit.set "cpu_avg" (.str (pyStr v))).set "cpu_max" (.str (pyStr v))
        | Option.none => cpuMemInit
      let cpuMem := match s0.get "memory_usage_percent" with
        | some v => cpuMem.set "memory_usage_percent" (.str (pyStr v))
        | Option.none => cpuMem
      (parsed, cpuMem)

/-- The `aruba_aoscx` enrichment branch. -/
def arubaEnrich (parsed : List (String × List Fields)) :
    List (String × List Fields) × Fields :=
  match (getA parsed "show system").getD [] with
  | [] => (parsed, cpuMemInit)
  | s0 :: rest =>
    if s0 = Fields.nil then (parsed, cpuMemInit)
    else
      let res := process_aruba_system_data s0
      (setA parsed "show system" ((s0.updateWith res) :: rest), cpuMemInit.updateWith res)

/-- The CPU half of the Huawei enrichment branch. -/
def huaweiCpuStep (parsed : List (String × List Fields)) :
    List (String × List Fields) × Fields :=
  match (getA parsed "display cpu-usage").getD [] with
  | [] => (parsed, cpuMemInit)
  | c0 :: rest =>
    if c0 = Fields.nil then (parsed, cpuMemInit)
    else
      let res := process_huawei_cpu_data c0
      (setA parsed "display cpu-usage" ((c0.updateWith res) :: rest),
       cpuMemInit.updateWith res)

/-- The memory half of the Huawei enrichment branch. -/
def huaweiMemStep (p : List (String × List Fields) × Fields) :
    List (String × List Fields) × Fields :=
  match (getA p.1 "display memory usage").getD [] with
  | [] => p
  | m0 :: rest =>
    if m0 = Fields.nil then p
    else
      let res := process_huawei_memory_data m0
      (setA p.1 "display memory usage" ((m0.updateWith res) :: rest),
       p.2.updateWith res)

/-- The Huawei enrichment branch (CPU step, then memory step). -/
def huaweiEnrich (parsed : List (String × List Fields)) :
    List (String × List Fields) × Fields :=
  huaweiMemStep (huaweiCpuStep parsed)

/-- The whole per-file table dict, as a dict value for deduplication. -/
def tablesDict (parsed : List (String × List Fields)) : Fields :=
  Fields.ofPairs (parsed.map (fun ct => (ct.1, Val.list (ValList.ofList (ct.2.map Val.dict)))))

/-- The platform-keyed enrichment dispatch of `parse_network_file`. -/
def enrichStep (device_platform file_content : String)
    (parsed : List (String × List Fields)) :
    Except String (List (String × List Fields) × Fields) :=
  if device_platform = "cisco_ios" then ciscoIosEnrich file_content parsed
  else if device_platform = "cisco_nxos" then Except.ok (ciscoNxosEnrich parsed)
  else if device_platform = "aruba_aoscx" then Except.ok (arubaEnrich parsed)
  else if device_platform = "huawei_vrp" || device_platform = "huawei_yunshan" then
    Except.ok (huaweiEnrich parsed)
  else Except.ok (parsed, cpuMemInit)

/-- `parse_network_file`: platform detection, template lookup with the
no-templates sentinel, per-command extraction through the engine,
platform-specific CPU/memory enrichment, deduplication, and the final
`Calculated_CPU_Memory` entry. -/
def parse_network_file (engine : Engine) (file_content filename : String) :
    Except String Doc :=
  let device_platform := detect_platform file_content
  let templates := (getA TEXTFSM_TEMPLATES device_platform).getD []
  if templates.isEmpty then
    Except.ok ⟨device_platform,
      .cons "Error" (.str ("No templates configured for " ++ device_platform)) .nil,
      filename⟩
  else
    let parsed : List (String × List Fields) :=
      templates.map (fun ct => (ct.1, engine device_platform ct.1 file_content))
    match enrichStep device_platform file_content parsed with
    | Except.error e => Except.error e
    | Except.ok pc =>
      match dedupD (tablesDict pc.1) with
      | some dd =>
        Except.ok ⟨device_platform, dd.set "Calculated_CPU_Memory" (Val.dict pc.2), filename⟩
      | Option.none => Except.error "TypeError: unhashable type"

/-! ### Concrete inputs used by the closed instances of the theorems -/

/-- An engine that extracts nothing (every command fails and degrades to `[]`). -/
def engineEmpty : Engine := fun _ _ _ => []

/-- An engine producing one record for the Huawei CPU command only. -/
def engineHuaweiCpu : Engine := fun _ cmd _ =>
  if cmd = "display cpu-usage" then [Fields.cons "cpu_usage_rate" (.str "55.5") .nil] else []

/-- A Cisco IOS capture whose CPU-history window has too few lines: the
marker pair is present but only one line lies between them. -/
def shortWindowText : String := "Cisco IOS show\nlast 60 minutes last 72 hours"

/-- The chart window of the well-formed Cisco capture below. -/
def ciscoChartWindow : String :=
  "\nhdr\nxxxx1\nyyyy5\n#30\nt\nt\nt\nt\nt\nt\nt\nt\nt\nt\nt\nt"

/-- A well-formed Cisco IOS capture: chart rows reconstruct a max of 15,
and the legend line `#30` yields the average 30. -/
def ciscoChartText : String :=
  "Cisco IOS show\nlast 60 minutes" ++ ciscoChartWindow ++ "last 72 hours"

/-- A capture carrying both a Huawei and a Cisco signature with their
command keywords. -/
def bothVendorsText : String :=
  "Huawei Versatile Routing Platform\ndisplay version\nCisco IOS\nshow version"

/-- The document produced for `"VRP (R) display"` with the empty engine. -/
def huaweiEmptyDoc : Doc :=
  ⟨"huawei_vrp",
   .cons "display version" (.list .nil)
     (.cons "display interface" (.list .nil)
       (.cons "display cpu-usage" (.list .nil)
         (.cons "display memory usage" (.list .nil)
           (.cons "display device" (.list .nil)
             (.cons "Calculated_CPU_Memory" (.dict cpuMemInit) .nil))))),
   "f"⟩

/-- Sample record-shaped serial entries for the deduplication instance. -/
def serialRecA : Val := .dict (.cons "sn" (.str "A1") .nil)

/-- Second sample serial record. -/
def serialRecB : Val := .dict (.cons "sn" (.str "B2") .nil)

/-- The sample serial list `[{"sn":"A1"}, {"sn":"A1"}, {"sn":"B2"}]`. -/
def serialItems : ValList := .cons serialRecA (.cons serialRecA (.cons serialRecB .nil))

/-- The sample serial list after deduplication. -/
def serialItemsDedup : ValList := .cons serialRecA (.cons serialRecB .nil)

/-- A document holding the sample serial list. -/
def serialDocVal : Val := .dict (.cons "serial" (.list serialItems) .nil)

/-- The deduplicated form of `serialDocVal`. -/
def serialDocValDedup : Val := .dict (.cons "serial" (.list serialItemsDedup) .nil)

/-! ## Helper lemmas -/

theorem Fields.get_set_self : ∀ (r : Fields) (k : String) (v : Val),
    (r.set k v).get k = some v
  | .nil, k, v => by simp [Fields.set, Fields.get]
  | .cons a w rest, k, v => by
    by_cases h : a = k
    · subst h; simp [Fields.set, Fields.get]
    · simp [Fields.set, Fields.get, h, Fields.get_set_self rest k v]

theorem Fields.get_set_ne : ∀ (r : Fields) (k key : String) (v : Val), k ≠ key →
    (r.set k v).get key = r.get key
  | .nil, k, key, v, hne => by simp [Fields.set, Fields.get, hne]
  | .cons a w rest, k, key, v, hne => by
    by_cases h : a = k
    · subst h
      simp only [Fields.set, if_pos rfl]
      simp [Fields.get, hne]
    · simp only [Fields.set, if_neg h]
      by_cases hk : a = key
      · simp [Fields.get, hk]
      · simp [Fields.get, hk, Fields.get_set_ne rest k key v hne]

theorem Fields.keys_set_of_mem : ∀ (r : Fields) (k : String) (v : Val), k ∈ r.keys →
    (r.set k v).keys = r.keys
  | .nil, k, v, hmem => absurd hmem (by simp [Fields.keys])
  | .cons a w rest, k, v, hmem => by
    by_cases h : a = k
    · subst h; simp [Fields.set, Fields.keys]
    · have hr : k ∈ rest.keys := by
        rcases (by simpa [Fields.keys] using hmem : k = a ∨ k ∈ rest.keys) with h1 | h2
        · exact absurd h1.symm h
        · exact h2
      simp [Fields.set, Fields.keys, h, Fields.keys_set_of_mem rest k v hr]

theorem Fields.get_ne_none_of_mem_keys : ∀ (r : Fields) (k : String), k ∈ r.keys →
    r.get k ≠ Option.none
  | .nil, k, hmem => absurd hmem (by simp [Fields.keys])
  | .cons a w rest, k, hmem => by
    by_cases h : a = k
    · simp [Fields.get, h]
    · have hr : k ∈ rest.keys := by
        rcases (by simpa [Fields.keys] using hmem : k = a ∨ k ∈ rest.keys) with h1 | h2
        · exact absurd h1.symm h
        · exact h2
      simpa [Fields.get, h] using Fields.get_ne_none_of_mem_keys rest k hr

theorem Fields.keys_updateWith_of_sub : ∀ (other r : Fields),
    (∀ k ∈ other.keys, k ∈ r.keys) → (r.updateWith other).keys = r.keys
  | .nil, r, _ => rfl
  | .cons k v rest, r, hsub => by
    have hk : k ∈ r.keys := hsub k (by simp [Fields.keys])
    have hset := Fields.keys_set_of_mem r k v hk
    have hrest : ∀ a ∈ rest.keys, a ∈ (r.set k v).keys := by
      intro a ha
      rw [hset]
      exact hsub a (by simp [Fields.keys, ha])
    calc ((r.set k v).updateWith rest).keys
        = (r.set k v).keys := Fields.keys_updateWith_of_sub rest (r.set k v) hrest
      _ = r.keys := hset

theorem Fields.get_updateWith_of_notin : ∀ (other r : Fields) (key : String),
    key ∉ other.keys → (r.updateWith other).get key = r.get key
  | .nil, r, key, _ => rfl
  | .cons k v rest, r, key, hnot => by
    have hne : k ≠ key := by
      intro h; exact hnot (by simp [Fields.keys, h])
    have hrest : key ∉ rest.keys := by
      intro h; exact hnot (by simp [Fields.keys, h])
    calc ((r.set k v).updateWith rest).get key
        = (r.set k v).get key := Fields.get_updateWith_of_notin rest (r.set k v) key hrest
      _ = r.get key := Fields.get_set_ne r k key v hne

/-! ### Platform-detection lemmas -/

theorem detectFrom_eq (text : String) : ∀ l : List (String × List String × String),
    detectFrom text l = ((l.find? (matchesEntry text)).map Prod.fst).getD "unknown" := by
  intro l
  induction l with
  | nil => rfl
  | cons e rest ih =>
    obtain ⟨key, pats, cmd⟩ := e
    by_cases hc : contentMatches text pats
    · by_cases hm : containsCI text cmd
      · simp [detectFrom, hc, hm, List.find?, matchesEntry]
      · simp [detectFrom, hc, hm, List.find?, matchesEntry, ih]
    · simp [detectFrom, hc, List.find?, matchesEntry, ih]

/-! ### Summary-shape lemmas for the enrichment branches -/

theorem extract_cisco_keys (text : String) : ∀ r, extract_cisco_cpu_usage text = .ok r →
    r.keys = ["cpu_max", "cpu_avg"] := by
  intro r h
  unfold extract_cisco_cpu_usage at h
  split at h
  · injection h with h; subst h; rfl
  · simp only [] at h
    split at h
    · exact absurd h (by simp)
    · injection h with h
      subst h
      simp [Fields.set, Fields.keys]

theorem huaweiProbe_keys (c : Fields) : ∀ ks, (huaweiProbe c ks).keys = ["cpu_avg"] := by
  intro ks
  induction ks with
  | nil => rfl
  | cons k rest ih =>
    unfold huaweiProbe
    cases h : c.get k with
    | none => simpa [h] using ih
    | some v =>
      by_cases hn : huaweiNumericOk v
      · simp [h, hn, Fields.keys]
      · simpa [h, hn] using ih

theorem process_huawei_cpu_keys (c : Fields) :
    (process_huawei_cpu_data c).keys = ["cpu_avg"] :=
  huaweiProbe_keys c HUAWEI_CPU_KEYS

theorem process_huawei_memory_keys (m : Fields) :
    (process_huawei_memory_data m).keys = ["memory_usage_percent"] := by
  unfold process_huawei_memory_data
  split
  · split <;> rfl
  · rfl

theorem calculate_cisco_keys (m : Fields) :
    (calculate_cisco_memory_usage m).keys = ["memory_usage_percent"] := by
  unfold calculate_cisco_memory_usage
  split
  · split <;> rfl
  · rfl

theorem aruba_keys (s : Fields) :
    (process_aruba_system_data s).keys = ["cpu_max", "cpu_avg", "memory_usage_percent"] := by
  unfold process_aruba_system_data
  simp only []
  repeat' split
  all_goals simp [Fields.set, Fields.keys]

theorem ciscoIosEnrich_keys (fc : String) (parsed : List (String × List Fields)) :
    ∀ out, ciscoIosEnrich fc parsed = .ok out →
      out.2.keys = ["cpu_max", "cpu_avg", "memory_usage_percent"] := by
  intro out h
  unfold ciscoIosEnrich at h
  split at h
  · exact absurd h (by simp)
  · rename_i ciscoCpu hex
    have hck := extract_cisco_keys fc ciscoCpu hex
    have hbase : (cpuMemInit.updateWith ciscoCpu).keys =
        ["cpu_max", "cpu_avg", "memory_usage_percent"] := by
      have := Fields.keys_updateWith_of_sub ciscoCpu cpuMemInit (by
        intro k hk
        rw [hck] at hk
        simp only [List.mem_cons, List.not_mem_nil, or_false] at hk
        rcases hk with rfl | rfl <;> simp [cpuMemInit, Fields.keys])
      simpa [cpuMemInit, Fields.keys] using this
    split at h
    · injection h with h; subst h; exact hbase
    · split at h
      · injection h with h; subst h; exact hbase
      · injection h with h
        subst h
        simp only []
        rw [Fields.keys_set_of_mem _ _ _ (by rw [hbase]; simp)]
        exact hbase

theorem ciscoNxosEnrich_keys (parsed : List (String × List Fields)) :
    (ciscoNxosEnrich parsed).2.keys = ["cpu_max", "cpu_avg", "memory_usage_percent"] := by
  unfold ciscoNxosEnrich
  split
  · rfl
  · split
    · rfl
    · split <;> split <;> simp [Fields.set, Fields.keys, cpuMemInit]

theorem arubaEnrich_keys (parsed : List (String × List Fields)) :
    (arubaEnrich parsed).2.keys = ["cpu_max", "cpu_avg", "memory_usage_percent"] := by
  unfold arubaEnrich
  split
  · rfl
  · split
    · rfl
    · rw [Fields.keys_updateWith_of_sub _ _ (by
        intro k hk
        rw [aruba_keys] at hk
        simp only [List.mem_cons, List.not_mem_nil, or_false] at hk
        rcases hk with rfl | rfl | rfl <;> simp [cpuMemInit, Fields.keys])]
      rfl

theorem huaweiCpuStep_keys (parsed : List (String × List Fields)) :
    (huaweiCpuStep parsed).2.keys = ["cpu_max", "cpu_avg", "memory_usage_percent"] := by
  unfold huaweiCpuStep
  split
  · rfl
  · split
    · rfl
    · simp only []
      rw [Fields.keys_updateWith_of_sub _ _ (by
        intro k hk
        rw [process_huawei_cpu_keys] at hk
        simp only [List.mem_cons, List.not_mem_nil, or_false] at hk
        subst hk
        simp [cpuMemInit, Fields.keys])]
      rfl

theorem huaweiMemStep_keys (p : List (String × List Fields) × Fields)
    (hp : p.2.keys = ["cpu_max", "cpu_avg", "memory_usage_percent"]) :
    (huaweiMemStep p).2.keys = ["cpu_max", "cpu_avg", "memory_usage_percent"] := by
  unfold huaweiMemStep
  split
  · exact hp
  · split
    · exact hp
    · simp only []
      rw [Fields.keys_updateWith_of_sub _ _ (by
        intro k hk
        rw [process_huawei_memory_keys] at hk
        simp only [List.mem_cons, List.not_mem_nil, or_false] at hk
        subst hk
        rw [hp]
        simp)]
      exact hp

theorem huaweiEnrich_keys (parsed : List (String × List Fields)) :
    (huaweiEnrich parsed).2.keys = ["cpu_max", "cpu_avg", "memory_usage_percent"] :=
  huaweiMemStep_keys (huaweiCpuStep parsed) (huaweiCpuStep_keys parsed)

/-! ### Deduplication lemmas -/

theorem dedupItemsAux_stable : ∀ (l : ValList) (seen : List SeenKey) (out : ValList),
    dedupItemsAux seen l = some out → dedupItemsAux seen out = some out
  | .nil, seen, out, h => by
    simp only [dedupItemsAux] at h
    injection h with h; subst h
    rfl
  | .cons item rest, seen, out, h => by
    simp only [dedupItemsAux] at h
    split at h
    · exact absurd h (by simp)
    · rename_i k hk
      split at h
      · rename_i hm
        exact dedupItemsAux_stable rest seen out h
      · rename_i hm
        cases hr : dedupItemsAux (k :: seen) rest with
        | none => rw [hr] at h; exact absurd h (by simp)
        | some out' =>
          rw [hr] at h
          simp only [Option.map] at h
          injection h with h; subst h
          simp only [dedupItemsAux, hk, if_neg hm,
            dedupItemsAux_stable rest (k :: seen) out' hr, Option.map]

theorem dropSeen_nil : ∀ l : ValList, dropSeen [] l = l
  | .nil => rfl
  | .cons y rest => by
    simp only [dropSeen]
    cases hk : keyOfItem y with
    | none => simp [dropSeen_nil rest]
    | some k => simp [dropSeen_nil rest]

theorem removeSameKey_dropSeen (x : Val) (k : SeenKey) (hx : keyOfItem x = some k) :
    ∀ (l : ValList) (seen : List SeenKey),
      removeSameKey x (dropSeen seen l) = dropSeen (k :: seen) l
  | .nil, seen => rfl
  | .cons y rest, seen => by
    cases hky : keyOfItem y with
    | none =>
      simp only [dropSeen, hky, removeSameKey, hx]
      rw [if_neg (by simp)]
      rw [removeSameKey_dropSeen x k hx rest seen]
    | some k' =>
      by_cases hmem : k' ∈ seen
      · have h2 : k' ∈ k :: seen := List.mem_cons_of_mem _ hmem
        simp only [dropSeen, hky, hmem, h2, if_true]
        exact removeSameKey_dropSeen x k hx rest seen
      · by_cases hk' : k' = k
        · subst hk'
          have h2 : k' ∈ k' :: seen := List.mem_cons_self k' seen
          simp only [dropSeen, hky, hmem, h2, if_true, if_false]
          simp only [removeSameKey, hky, hx, if_true]
          exact removeSameKey_dropSeen x k' hx rest seen
        · have h2 : k' ∉ k :: seen := by simp [hk', hmem]
          simp only [dropSeen, hky, hmem, h2, if_false]
          simp only [removeSameKey, hky, hx]
          rw [if_neg (by simp [hk'])]
          rw [removeSameKey_dropSeen x k hx rest seen]

theorem removeSameKey_length (x : Val) : ∀ l : ValList, (removeSameKey x l).length ≤ l.length
  | .nil => by simp [removeSameKey, ValList.length]
  | .cons y rest => by
    have ih := removeSameKey_length x rest
    simp only [removeSameKey]
    split
    · exact Nat.le_succ_of_le ih
    · simp only [ValList.length]
      omega

theorem keepFirstsGo_congr : ∀ (f g : Nat) (l : ValList), l.length ≤ f → l.length ≤ g →
    keepFirstsGo f l = keepFirstsGo g l
  | f, g, .nil, _, _ => by cases f <;> cases g <;> rfl
  | 0, _, .cons x xs, hf, _ => by simp [ValList.length] at hf
  | _ + 1, 0, .cons x xs, _, hg => by simp [ValList.length] at hg
  | f + 1, g + 1, .cons x xs, hf, hg => by
    simp only [keepFirstsGo]
    have hxf : xs.length ≤ f := by simpa [ValList.length] using hf
    have hxg : xs.length ≤ g := by simpa [ValList.length] using hg
    rw [keepFirstsGo_congr f g (removeSameKey x xs)
      (le_trans (removeSameKey_length x xs) hxf)
      (le_trans (removeSameKey_length x xs) hxg)]

theorem dedupItemsAux_keepFirsts : ∀ (l : ValList) (seen : List SeenKey) (out : ValList),
    dedupItemsAux seen l = some out → out = keepFirsts (dropSeen seen l)
  | .nil, seen, out, h => by
    simp only [dedupItemsAux] at h
    injection h with h; subst h
    rfl
  | .cons item rest, seen, out, h => by
    simp only [dedupItemsAux] at h
    split at h
    · exact absurd h (by simp)
    · rename_i k hk
      split at h
      · rename_i hm
        have ih := dedupItemsAux_keepFirsts rest seen out h
        simpa [dropSeen, hk, hm] using ih
      · rename_i hm
        cases hr : dedupItemsAux (k :: seen) rest with
        | none => rw [hr] at h; exact absurd h (by simp)
        | some out' =>
          rw [hr] at h
          simp only [Option.map] at h
          injection h with h; subst h
          have ih := dedupItemsAux_keepFirsts rest (k :: seen) out' hr
          have heq := removeSameKey_dropSeen item k hk rest seen
          have hlen : (dropSeen (k :: seen) rest).length ≤ (dropSeen seen rest).length :=
            heq ▸ removeSameKey_length item (dropSeen seen rest)
          have hds : dropSeen seen (.cons item rest) = .cons item (dropSeen seen rest) := by
            simp [dropSeen, hk, hm]
          rw [hds]
          unfold keepFirsts
          simp only [ValList.length, keepFirstsGo]
          rw [heq]
          rw [keepFirstsGo_congr (dropSeen seen rest).length
            (dropSeen (k :: seen) rest).length _ hlen (le_refl _)]
          rw [ih]
          rfl

theorem dedupV_not_list : ∀ (v w : Val), dedupV v = some w →
    (∀ its, v ≠ Val.list its) → ∀ its, w ≠ Val.list its := by
  intro v w h hv
  cases v with
  | str s => simp only [dedupV] at h; injection h with h; subst h; simp
  | num q => simp only [dedupV] at h; injection h with h; subst h; simp
  | vnone => simp only [dedupV] at h; injection h with h; subst h; simp
  | list items => exact absurd rfl (hv items)
  | dict fields =>
    simp only [dedupV] at h
    cases hd : dedupD fields with
    | none => rw [hd] at h; exact absurd h (by simp)
    | some e =>
      rw [hd] at h
      simp only [Option.map] at h
      injection h with h; subst h
      simp

theorem dedupD_cons_not_list (k : String) (v' : Val) (rest' : Fields)
    (hne : ∀ its, v' ≠ Val.list its) :
    dedupD (.cons k v' rest') =
      match dedupV v', dedupD rest' with
      | some a, some b => some (.cons k a b)
      | _, _ => Option.none := by
  cases v' with
  | list its => exact absurd rfl (hne its)
  | str s => by_cases hk : isDedupKey k = true <;> simp [dedupD, hk]
  | num q => by_cases hk : isDedupKey k = true <;> simp [dedupD, hk]
  | vnone => by_cases hk : isDedupKey k = true <;> simp [dedupD, hk]
  | dict fields => by_cases hk : isDedupKey k = true <;> simp [dedupD, hk]

theorem dedupD_cons_false (k : String) (v' : Val) (rest' : Fields)
    (hk : isDedupKey k = false) :
    dedupD (.cons k v' rest') =
      match dedupV v', dedupD rest' with
      | some a, some b => some (.cons k a b)
      | _, _ => Option.none := by
  cases v' <;> simp [dedupD, hk]

theorem dedupD_cons_serial_list (k : String) (items : ValList) (rest' : Fields)
    (hk : isDedupKey k = true) :
    dedupD (.cons k (Val.list items) rest') =
      match (dedupItemsAux [] items).map Val.list, dedupD rest' with
      | some a, some b => some (.cons k a b)
      | _, _ => Option.none := by
  simp [dedupD, hk]

theorem sizeOf_list_lt (items : ValList) : sizeOf items < sizeOf (Val.list items) := by
  simp

theorem sizeOf_dict_lt (fields : Fields) : sizeOf fields < sizeOf (Val.dict fields) := by
  simp

theorem sizeOf_vlcons_v (v : Val) (rest : ValList) : sizeOf v < sizeOf (ValList.cons v rest) := by
  simp only [ValList.cons.sizeOf_spec]
  omega

theorem sizeOf_vlcons_rest (v : Val) (rest : ValList) :
    sizeOf rest < sizeOf (ValList.cons v rest) := by
  simp only [ValList.cons.sizeOf_spec]
  omega

theorem sizeOf_fcons_v (k : String) (v : Val) (rest : Fields) :
    sizeOf v < sizeOf (Fields.cons k v rest) := by
  simp only [Fields.cons.sizeOf_spec]
  omega

theorem sizeOf_fcons_rest (k : String) (v : Val) (rest : Fields) :
    sizeOf rest < sizeOf (Fields.cons k v rest) := by
  simp only [Fields.cons.sizeOf_spec]
  omega

theorem dedupL_cons_unfold (v : Val) (rest : ValList) :
    dedupL (.cons v rest) =
      match dedupV v, dedupL rest with
      | some v', some rest' => some (.cons v' rest')
      | _, _ => Option.none := by
  simp only [dedupL]

theorem dedupD_cons_unfold (k : String) (v : Val) (rest : Fields) :
    dedupD (.cons k v rest) =
      match (if isDedupKey k = true then
               match v with
               | Val.list items => (dedupItemsAux [] items).map Val.list
               | other => dedupV other
             else dedupV v),
            dedupD rest with
      | some v', some rest' => some (.cons k v' rest')
      | _, _ => Option.none := by
  cases v <;> by_cases hk : isDedupKey k = true <;> simp [dedupD, hk]

theorem dedup_idem_aux : ∀ n : Nat,
    (∀ v w, sizeOf v ≤ n → dedupV v = some w → dedupV w = some w) ∧
    (∀ l m, sizeOf l ≤ n → dedupL l = some m → dedupL m = some m) ∧
    (∀ d e, sizeOf d ≤ n → dedupD d = some e → dedupD e = some e) := by
  intro n
  induction n using Nat.strong_induction_on with
  | _ n ih =>
    refine ⟨?_, ?_, ?_⟩
    · intro v w hle h
      cases v with
      | str s => simp only [dedupV] at h; injection h with h; subst h; rfl
      | num q => simp only [dedupV] at h; injection h with h; subst h; rfl
      | vnone => simp only [dedupV] at h; injection h with h; subst h; rfl
      | list items =>
        have hlt : sizeOf items < n := lt_of_lt_of_le (sizeOf_list_lt items) hle
        simp only [dedupV] at h
        cases hl : dedupL items with
        | none => rw [hl] at h; exact absurd h (by simp)
        | some m =>
          rw [hl] at h
          simp only [Option.map] at h
          injection h with h; subst h
          have hidem := (ih (sizeOf items) hlt).2.1 items m (le_refl _) hl
          simp only [dedupV, hidem, Option.map]
      | dict fields =>
        have hlt : sizeOf fields < n := lt_of_lt_of_le (sizeOf_dict_lt fields) hle
        simp only [dedupV] at h
        cases hd : dedupD fields with
        | none => rw [hd] at h; exact absurd h (by simp)
        | some e =>
          rw [hd] at h
          simp only [Option.map] at h
          injection h with h; subst h
          have hidem := (ih (sizeOf fields) hlt).2.2 fields e (le_refl _) hd
          simp only [dedupV, hidem, Option.map]
    · intro l m hle h
      cases l with
      | nil => simp only [dedupL] at h; injection h with h; subst h; rfl
      | cons v rest =>
        rw [dedupL_cons_unfold] at h
        split at h
        · rename_i v' rest' hv hr
          injection h with h; subst h
          have h1 := (ih (sizeOf v) (lt_of_lt_of_le (sizeOf_vlcons_v v rest) hle)).1
            v v' (le_refl _) hv
          have h2 := (ih (sizeOf rest) (lt_of_lt_of_le (sizeOf_vlcons_rest v rest) hle)).2.1
            rest rest' (le_refl _) hr
          simp only [dedupL, h1, h2]
        · exact absurd h (by simp)
    · intro d e hle h
      cases d with
      | nil => simp only [dedupD] at h; injection h with h; subst h; rfl
      | cons k v rest =>
        have hltv : sizeOf v < n := lt_of_lt_of_le (sizeOf_fcons_v k v rest) hle
        have hltr : sizeOf rest < n := lt_of_lt_of_le (sizeOf_fcons_rest k v rest) hle
        rw [dedupD_cons_unfold] at h
        split at h
        · rename_i v' rest' hv hr
          injection h with h; subst h
          have hrest := (ih (sizeOf rest) hltr).2.2 rest rest' (le_refl _) hr
          split at hv
          · rename_i hk
            split at hv
            · rename_i items
              cases hi : dedupItemsAux [] items with
              | none => rw [hi] at hv; exact absurd hv (by simp)
              | some out =>
                rw [hi] at hv
                simp only [Option.map] at hv
                injection hv with hv; subst hv
                rw [dedupD_cons_serial_list k out rest' hk]
                rw [dedupItemsAux_stable items [] out hi, hrest]
                rfl
            · rename_i hother
              have hvi := (ih (sizeOf v) hltv).1 v v' (le_refl _) hv
              rw [dedupD_cons_not_list k v' rest'
                (dedupV_not_list v v' hv (fun its hc => hother its hc))]
              rw [hvi, hrest]
          · rename_i hk
            have hvi := (ih (sizeOf v) hltv).1 v v' (le_refl _) hv
            have hkf : isDedupKey k = false := by simpa using hk
            rw [dedupD_cons_false k v' rest' hkf, hvi, hrest]
        · exact absurd h (by simp)

/-- Idempotence of the deduplication walk on values. -/
theorem dedupV_idem (v w : Val) (h : dedupV v = some w) : dedupV w = some w :=
  (dedup_idem_aux (sizeOf v)).1 v w (le_refl _) h

/-! ### Probe-order characterization of the Huawei CPU heuristic -/

theorem huaweiProbe_eq (c : Fields) : ∀ ks : List String,
    huaweiProbe c ks = .cons "cpu_avg"
      (match (ks.filterMap (fun k => (c.get k).bind
        (fun v => if huaweiNumericOk v then some (huaweiTruncVal v) else Option.none))).head? with
       | some n => Val.str (toString n)
       | Option.none => Val.str "N/A") .nil := by
  intro ks
  induction ks with
  | nil => rfl
  | cons k rest ih =>
    cases h : c.get k with
    | none => simp [huaweiProbe, List.filterMap_cons, h, ih]
    | some v =>
      by_cases hn : huaweiNumericOk v
      · simp [huaweiProbe, List.filterMap_cons, h, hn]
      · simp [huaweiProbe, List.filterMap_cons, h, hn, ih]

/-! ### Frame lemmas for the Huawei branch -/

theorem huaweiCpuStep_cpu_max (parsed : List (String × List Fields)) :
    (huaweiCpuStep parsed).2.get "cpu_max" = some (.str "N/A") := by
  unfold huaweiCpuStep
  split
  · rfl
  · split
    · rfl
    · simp only []
      rw [Fields.get_updateWith_of_notin _ _ _ (by
        rw [process_huawei_cpu_keys]
        simp)]
      rfl

theorem huaweiMemStep_cpu_max (p : List (String × List Fields) × Fields)
    (hp : p.2.get "cpu_max" = some (.str "N/A")) :
    (huaweiMemStep p).2.get "cpu_max" = some (.str "N/A") := by
  unfold huaweiMemStep
  split
  · exact hp
  · split
    · exact hp
    · simp only []
      rw [Fields.get_updateWith_of_notin _ _ _ (by
        rw [process_huawei_memory_keys]
        simp)]
      exact hp

theorem huaweiEnrich_cpu_max (parsed : List (String × List Fields)) :
    (huaweiEnrich parsed).2.get "cpu_max" = some (.str "N/A") :=
  huaweiMemStep_cpu_max (huaweiCpuStep parsed) (huaweiCpuStep_cpu_max parsed)

/-! ## Claim theorems -/

/-- C1: the claim states that `parse_network_file` never raises for any
input, and that every failure mode is a field value in the returned
structure.  The code contradicts this: for a Cisco IOS capture whose
"last 60 minutes" window contains fewer lines than the fixed chart
slicing expects, `extract_cisco_cpu_usage` evaluates
`cpu_history_section.splitlines()[-2]` on a too-short list and raises
`IndexError`, which `parse_network_file` does not catch (verified here:
the model returns the IndexError outcome for every engine and every
filename at the concrete failing capture). -/
theorem parse_raises_short_cisco_window : ∀ (engine : Engine) (fn : String),
    parse_network_file engine shortWindowText fn =
      Except.error "IndexError: list index out of range" := by
  intro engine fn
  rfl

/-- C3: `detect_platform` walks the signature table in its declaration
order (huawei_vrp, huawei_yunshan, cisco_ios, cisco_nxos, aruba_aoscx)
and returns the first entry whose content marker and command marker both
match case-insensitively; in particular a capture carrying both Huawei
and Cisco signatures detects as `huawei_vrp`. -/
theorem detect_platform_first_match :
    ENV_PATTERNS.map Prod.fst =
      ["huawei_vrp", "huawei_yunshan", "cisco_ios", "cisco_nxos", "aruba_aoscx"] ∧
    (∀ text, detect_platform text =
      (((ENV_PATTERNS.find? (matchesEntry text)).map Prod.fst).getD "unknown")) ∧
    detect_platform bothVendorsText = "huawei_vrp" := by
  refine ⟨rfl, ?_, by rfl⟩
  intro text
  exact detectFrom_eq text ENV_PATTERNS

/-- C4: when no signature entry has both its content pattern and its
command pattern matching, `detect_platform` returns "unknown". -/
theorem detect_unknown_of_no_match : ∀ text : String,
    (∀ e ∈ ENV_PATTERNS, matchesEntry text e = false) →
    detect_platform text = "unknown" := by
  intro text h
  rw [detect_platform, detectFrom_eq]
  rw [List.find?_eq_none.mpr (fun e he => by simp [h e he])]
  rfl

/-- C4 witness: a content marker alone ("Cisco IOS", no command keyword)
and a command keyword alone ("show version", no vendor marker) both
detect as "unknown". -/
theorem detect_unknown_of_no_match_witness :
    (∀ e ∈ ENV_PATTERNS, matchesEntry "Cisco IOS" e = false) ∧
    detect_platform "Cisco IOS" = "unknown" ∧
    (∀ e ∈ ENV_PATTERNS, matchesEntry "show version" e = false) ∧
    detect_platform "show version" = "unknown" :=
  ⟨by decide, detect_unknown_of_no_match "Cisco IOS" (by decide),
   by decide, detect_unknown_of_no_match "show version" (by decide)⟩

/-- C6: the claim is corrected.  As stated it asserts both "when
memory_total is 0 or absent the result is 0" and "when the fields are
missing or non-numeric the result is 'N/A'"; the code treats a missing
field as the integer 0 (`memory_data.get(..., 0)`), so a record with
`memory_total` present and `memory_used` absent yields 0.0, not "N/A".
This closed counterexample shows the output at such a record. -/
theorem cisco_memory_missing_counterexample :
    calculate_cisco_memory_usage (Fields.cons "memory_total" (.str "100") .nil) =
      .cons "memory_usage_percent" (.num 0) .nil ∧
    Fields.cons "memory_usage_percent" (Val.num 0) Fields.nil ≠
      Fields.cons "memory_usage_percent" (Val.str "N/A") Fields.nil :=
  ⟨by with_unfolding_all decide, by decide⟩

/-- C6 amended: with each field read through its default of 0
(`memory_data.get(key, 0)`), if both reads coerce to integers then the
result is `round(used/total*100, 2)` for a nonzero total and 0 for a
zero total (with no division error); if either read fails to coerce
(present but non-numeric, or a None value) the result is "N/A". -/
theorem cisco_memory_amended : ∀ d : Fields,
    (∀ t u : Int,
      pyIntOf ((d.get "memory_total").getD (.num 0)) = some t →
      pyIntOf ((d.get "memory_used").getD (.num 0)) = some u →
      (t ≠ 0 → calculate_cisco_memory_usage d =
        .cons "memory_usage_percent" (.num (pyRound2 ((u : Rat) / (t : Rat) * 100))) .nil) ∧
      (t = 0 → calculate_cisco_memory_usage d =
        .cons "memory_usage_percent" (.num 0) .nil)) ∧
    ((pyIntOf ((d.get "memory_total").getD (.num 0)) = Option.none ∨
      pyIntOf ((d.get "memory_used").getD (.num 0)) = Option.none) →
      calculate_cisco_memory_usage d =
        .cons "memory_usage_percent" (.str "N/A") .nil) := by
  intro d
  constructor
  · intro t u ht hu
    constructor
    · intro htne
      simp only [calculate_cisco_memory_usage, ht, hu]
      rw [if_neg htne]
    · intro ht0
      simp only [calculate_cisco_memory_usage, ht, hu]
      rw [if_pos ht0]
  · intro hor
    rcases hor with h | h
    · simp [calculate_cisco_memory_usage, h]
    · cases ht : pyIntOf ((d.get "memory_total").getD (.num 0)) with
      | none => simp [calculate_cisco_memory_usage, ht]
      | some t => simp [calculate_cisco_memory_usage, ht, h]

/-- C6 amended witness: total 1000 and used 250 give exactly 25. -/
theorem cisco_memory_amended_witness :
    pyIntOf (((Fields.cons "memory_total" (.str "1000")
        (.cons "memory_used" (.str "250") .nil)).get "memory_total").getD (.num 0)) =
      some 1000 ∧
    pyRound2 ((250 : Rat) / (1000 : Rat) * 100) = 25 ∧
    calculate_cisco_memory_usage
        (Fields.cons "memory_total" (.str "1000") (.cons "memory_used" (.str "250") .nil)) =
      .cons "memory_usage_percent" (.num (pyRound2 ((250 : Rat) / (1000 : Rat) * 100))) .nil :=
  ⟨by decide, by with_unfolding_all decide,
   ((cisco_memory_amended
      (Fields.cons "memory_total" (.str "1000")
        (.cons "memory_used" (.str "250") .nil))).1 1000 250 (by decide) (by decide)).1
      (by decide)⟩

/-- C7: when the detected platform has no configured templates the
returned document's tables are exactly the single-key sentinel
`{"Error": "No templates configured for <platform>"}`, for every engine
and filename, with no exception. -/
theorem no_templates_error_sentinel : ∀ (engine : Engine) (text fn : String),
    (getA TEXTFSM_TEMPLATES (detect_platform text)).getD [] = [] →
    parse_network_file engine text fn =
      Except.ok ⟨detect_platform text,
        .cons "Error" (.str ("No templates configured for " ++ detect_platform text)) .nil,
        fn⟩ := by
  intro engine text fn h
  unfold parse_network_file
  simp [h]

/-- C7 witness: a capture with no vendor markers detects as "unknown"
and produces the sentinel "No templates configured for unknown". -/
theorem no_templates_error_sentinel_witness :
    (getA TEXTFSM_TEMPLATES (detect_platform "plain text capture")).getD [] = [] ∧
    parse_network_file engineEmpty "plain text capture" "f.log" =
      Except.ok ⟨"unknown",
        .cons "Error" (.str "No templates configured for unknown") .nil, "f.log"⟩ :=
  ⟨rfl, no_templates_error_sentinel engineEmpty "plain text capture" "f.log" rfl⟩

/-- C8: the deduplication walk is idempotent (a second run over an
already-deduplicated document reproduces it exactly), and each
deduplicated designated list keeps its surviving elements in original
first-occurrence order, record-shaped elements compared by their sorted
field/value pairs and scalar elements by raw equality (the comparison
key construction is `keyOfItem`, and `keepFirsts` keeps exactly the
first occurrence of every key in order). -/
theorem dedup_idempotent_and_first_occurrence :
    (∀ v w : Val, dedupV v = some w → dedupV w = some w) ∧
    (∀ (l out : ValList), dedupItemsAux [] l = some out → out = keepFirsts l) := by
  constructor
  · exact fun v w h => dedupV_idem v w h
  · intro l out h
    have hkf := dedupItemsAux_keepFirsts l [] out h
    rwa [dropSeen_nil] at hkf

/-- C8 witness: deduplicating `[{"sn":"A1"}, {"sn":"A1"}, {"sn":"B2"}]`
inside a "serial" entry is stable under a second run, and the
deduplicated list is the first-occurrence filter of the original. -/
theorem dedup_idempotent_witness :
    dedupV serialDocValDedup = some serialDocValDedup ∧
    serialItemsDedup = keepFirsts serialItems :=
  ⟨(dedup_idempotent_and_first_occurrence).1 serialDocVal serialDocValDedup (by rfl),
   (dedup_idempotent_and_first_occurrence).2 serialItems serialItemsDedup (by rfl)⟩

/-- C9: the Huawei CPU heuristic probes `cpu_usage_rate`, then
`cpu_usage_average`, then `cpu_usage`, writing the truncated value of the
first present, numeric-parsing field and ignoring all later fields; the
result is exactly the single `cpu_avg` entry determined by that
first-success probe (`huaweiFirstNumeric`). -/
theorem huawei_probe_first_success :
    HUAWEI_CPU_KEYS = ["cpu_usage_rate", "cpu_usage_average", "cpu_usage"] ∧
    ∀ c : Fields, process_huawei_cpu_data c = .cons "cpu_avg"
      (match huaweiFirstNumeric c with
       | some n => Val.str (toString n)
       | Option.none => Val.str "N/A") .nil :=
  ⟨rfl, fun c => huaweiProbe_eq c HUAWEI_CPU_KEYS⟩

theorem get_cpu_avg_of_set (a b : Val) :
    (((Fields.cons "cpu_max" (Val.str "N/A")
        (Fields.cons "cpu_avg" (Val.str "N/A") Fields.nil)).set "cpu_max" a).set
      "cpu_avg" b).get "cpu_avg" = some b := by
  simp [Fields.set, Fields.get]

/-- C5: for Cisco IOS text whose CPU window is found, whose chart section
is deep enough to index (so the unguarded slicing does not raise), and
whose trailing-line scan finds a line containing `#` with at least one
digit, the reported `cpu_avg` is exactly "1" when the digit-stripped
integer is below 10 and that integer's decimal string otherwise. -/
theorem cisco_cpu_avg_floor : ∀ (text w l : String) (rest : List String),
    ciscoWindow text = some w →
    ¬ (pySplitlines (ciscoMaxSection w)).length < 2 →
    (ciscoAvgLines w).filter (fun s => s.toList.contains '#') = l :: rest →
    String.mk (l.toList.filter Char.isDigit) ≠ "" →
    ∃ r, extract_cisco_cpu_usage text = Except.ok r ∧
      r.get "cpu_avg" = some (.str
        (if digitsToNat (String.mk (l.toList.filter Char.isDigit)).toList < 10 then "1"
         else toString (digitsToNat (String.mk (l.toList.filter Char.isDigit)).toList))) := by
  intro text w l rest hw hlen hfil hne
  unfold extract_cisco_cpu_usage
  simp only [hw]
  rw [if_neg hlen]
  refine ⟨_, rfl, ?_⟩
  rw [get_cpu_avg_of_set]
  simp only [hfil]
  rw [if_neg hne]

/-- C5 witness: in the concrete capture the legend line is `#30`, whose
stripped integer 30 is at least 10, so `cpu_avg` is reported verbatim
as "30". -/
theorem cisco_cpu_avg_floor_witness :
    ciscoWindow ciscoChartText = some ciscoChartWindow ∧
    ¬ (pySplitlines (ciscoMaxSection ciscoChartWindow)).length < 2 ∧
    (ciscoAvgLines ciscoChartWindow).filter (fun s => s.toList.contains '#') = ["#30"] ∧
    String.mk (("#30" : String).toList.filter Char.isDigit) ≠ "" ∧
    ∃ r, extract_cisco_cpu_usage ciscoChartText = Except.ok r ∧
      r.get "cpu_avg" = some (.str "30") :=
  ⟨by decide, by decide, by decide, by decide,
   cisco_cpu_avg_floor ciscoChartText ciscoChartWindow "#30" []
     (by decide) (by decide) (by decide) (by decide)⟩

/-- C2 counterexample: the claim asserts the `Calculated_CPU_Memory`
summary is present regardless of the failure path taken, including the
no-templates path.  The code's no-templates early return contains no
summary at all: for empty input the returned data is exactly the Error
sentinel and lookup of `Calculated_CPU_Memory` yields nothing. -/
theorem summary_absent_for_unknown :
    parse_network_file engineEmpty "" "f.log" =
      Except.ok ⟨"unknown",
        .cons "Error" (.str "No templates configured for unknown") .nil, "f.log"⟩ ∧
    (Fields.cons "Error" (Val.str "No templates configured for unknown")
        Fields.nil).get "Calculated_CPU_Memory" = Option.none :=
  ⟨rfl, rfl⟩

/-- C2 amended: whenever the detected platform does have configured
templates and `parse_network_file` returns a document, that document's
data holds a `Calculated_CPU_Memory` dict with exactly the keys
`cpu_max`, `cpu_avg`, `memory_usage_percent` (in that order), each
present; in the no-templates path the document instead carries only the
Error sentinel and no summary (see the counterexample). -/
theorem summary_three_keys : ∀ (engine : Engine) (text fn : String) (doc : Doc),
    parse_network_file engine text fn = Except.ok doc →
    (getA TEXTFSM_TEMPLATES (detect_platform text)).getD [] ≠ [] →
    ∃ s, doc.data.get "Calculated_CPU_Memory" = some (Val.dict s) ∧
      s.keys = ["cpu_max", "cpu_avg", "memory_usage_percent"] ∧
      s.get "cpu_max" ≠ Option.none ∧ s.get "cpu_avg" ≠ Option.none ∧
      s.get "memory_usage_percent" ≠ Option.none := by
  intro engine text fn doc h hne
  unfold parse_network_file at h
  simp only [] at h
  split at h
  · rename_i hempty
    exact absurd (List.isEmpty_iff.mp hempty) hne
  · split at h
    · exact absurd h (by simp)
    · rename_i pc henrich
      split at h
      · rename_i dd hdedup
        injection h with h
        subst h
        refine ⟨pc.2, Fields.get_set_self dd "Calculated_CPU_Memory" (Val.dict pc.2), ?_⟩
        have hkeys : pc.2.keys = ["cpu_max", "cpu_avg", "memory_usage_percent"] := by
          unfold enrichStep at henrich
          split at henrich
          · exact ciscoIosEnrich_keys text _ pc henrich
          · split at henrich
            · injection henrich with henrich
              rw [← henrich]
              exact ciscoNxosEnrich_keys _
            · split at henrich
              · injection henrich with henrich
                rw [← henrich]
                exact arubaEnrich_keys _
              · split at henrich
                · injection henrich with henrich
                  rw [← henrich]
                  exact huaweiEnrich_keys _
                · injection henrich with henrich
                  rw [← henrich]
                  rfl
        refine ⟨hkeys, ?_, ?_, ?_⟩
        · exact Fields.get_ne_none_of_mem_keys pc.2 "cpu_max" (by rw [hkeys]; simp)
        · exact Fields.get_ne_none_of_mem_keys pc.2 "cpu_avg" (by rw [hkeys]; simp)
        · exact Fields.get_ne_none_of_mem_keys pc.2 "memory_usage_percent" (by
            rw [hkeys]; simp)
      · exact absurd h (by simp)

/-- C2 amended witness: the Huawei capture with the empty engine yields a
document whose summary has exactly the three keys. -/
theorem summary_three_keys_witness :
    (getA TEXTFSM_TEMPLATES (detect_platform "VRP (R) display")).getD [] ≠ [] ∧
    ∃ s, huaweiEmptyDoc.data.get "Calculated_CPU_Memory" = some (Val.dict s) ∧
      s.keys = ["cpu_max", "cpu_avg", "memory_usage_percent"] ∧
      s.get "cpu_max" ≠ Option.none ∧ s.get "cpu_avg" ≠ Option.none ∧
      s.get "memory_usage_percent" ≠ Option.none :=
  ⟨by decide,
   summary_three_keys engineEmpty "VRP (R) display" "f" huaweiEmptyDoc (by rfl)
     (by decide)⟩

/-- C10: for a Huawei capture (either Huawei platform), only `cpu_avg`
(and, in the memory step, `memory_usage_percent`) is ever written into
the summary; `cpu_max` keeps its default "N/A" whatever records the
engine produced for "display cpu-usage". -/
theorem huawei_cpu_max_untouched : ∀ (engine : Engine) (text fn : String) (doc : Doc),
    parse_network_file engine text fn = Except.ok doc →
    (detect_platform text = "huawei_vrp" ∨ detect_platform text = "huawei_yunshan") →
    ∃ s, doc.data.get "Calculated_CPU_Memory" = some (Val.dict s) ∧
      s.get "cpu_max" = some (.str "N/A") := by
  intro engine text fn doc h hp
  unfold parse_network_file at h
  simp only [] at h
  have hplat : detect_platform text = "huawei_vrp" ∨ detect_platform text = "huawei_yunshan" :=
    hp
  split at h
  · rename_i hempty
    rcases hplat with hp1 | hp1 <;> rw [hp1] at hempty <;> exact absurd hempty (by decide)
  · split at h
    · exact absurd h (by simp)
    · rename_i pc henrich
      split at h
      · rename_i dd hdedup
        injection h with h
        subst h
        refine ⟨pc.2, Fields.get_set_self dd "Calculated_CPU_Memory" (Val.dict pc.2), ?_⟩
        unfold enrichStep at henrich
        rcases hplat with hp1 | hp1 <;> rw [hp1] at henrich <;>
          simp only [reduceIte] at henrich <;>
          · injection henrich with henrich
            rw [← henrich]
            exact huaweiEnrich_cpu_max _
      · exact absurd h (by simp)

/-- C10 witness: for the concrete Huawei capture with the empty engine,
`cpu_max` in the summary is "N/A". -/
theorem huawei_cpu_max_untouched_witness :
    (detect_platform "VRP (R) display" = "huawei_vrp" ∨
      detect_platform "VRP (R) display" = "huawei_yunshan") ∧
    ∃ s, huaweiEmptyDoc.data.get "Calculated_CPU_Memory" = some (Val.dict s) ∧
      s.get "cpu_max" = some (.str "N/A") :=
  ⟨Or.inl (by decide),
   huawei_cpu_max_untouched engineEmpty "VRP (R) display" "f" huaweiEmptyDoc (by rfl)
     (Or.inl (by decide))⟩

end NetParser
